import Mathlib

/-!
Verification of the frame-classification and sprite-assembly pipeline of
`src/spritebake.py` (functions `is_empty_frame`, `needs_background_removal`,
`stitch_spritesheet`) against its natural-language specification.

Rasters are embedded as total pixel functions together with explicit
width/height; machine integers are `ℕ`; the float ratio comparisons of the
source are embedded as exact rational comparisons (the thresholds 0.001, 0.5,
0.4, 10, 20 compared against count ratios with pixel-count denominators are
decided identically by IEEE doubles and by exact rationals for any raster that
fits in memory); fallible code returns `Except`.
-/

deriving instance DecidableEq for Except

namespace Spritebake

/-- One RGBA pixel; channel values are machine bytes embedded as `ℕ`. -/
structure Pix where
  r : ℕ
  g : ℕ
  b : ℕ
  a : ℕ
deriving DecidableEq

/-- A decoded raster: width, height, and a pixel function.  Positions
`(x, y)` with `x < width`, `y < height` are the raster's pixels. -/
structure Img where
  width : ℕ
  height : ℕ
  px : ℕ → ℕ → Pix

/-- `Image.new('RGBA', (w, h), (0, 0, 0, 0))`: a fully transparent raster. -/
def Img.transparent (w h : ℕ) : Img :=
  ⟨w, h, fun _ _ => ⟨0, 0, 0, 0⟩⟩

/-- Number of raster positions satisfying a per-pixel predicate
(`np.sum(condition on arr)` over the full raster). -/
def countPx (f : Img) (p : Pix → Bool) : ℕ :=
  ((List.range f.height).map fun y =>
    ((List.range f.width).filter fun x => p (f.px x y)).length).sum

/-- Fraction of pixels with `alpha > 128` (the source's `opaque` ratio,
`np.sum(alpha > 128) / total`). -/
def alphaHiFrac (f : Img) : ℚ :=
  Rat.divInt ((countPx f fun p => decide (128 < p.a) : ℕ) : ℤ) ((f.width * f.height : ℕ) : ℤ)

/-- Fraction of pixels with `alpha < 10` (the source's `transparent` ratio,
`np.sum(alpha < 10) / total`, also `total_transparent` in
`needs_background_removal`). -/
def alphaLoFrac (f : Img) : ℚ :=
  Rat.divInt ((countPx f fun p => decide (p.a < 10) : ℕ) : ℤ) ((f.width * f.height : ℕ) : ℤ)

/-- `np.abs(rgb.astype(int) - bg.astype(int))` exceeding 20 in some channel. -/
def rgbDiffGt20 (p bg : Pix) : Bool :=
  decide (20 < max p.r bg.r - min p.r bg.r) ||
  decide (20 < max p.g bg.g - min p.g bg.g) ||
  decide (20 < max p.b bg.b - min p.b bg.b)

/-- The source's `diff_ratio`: fraction of pixels whose RGB differs from the
top-left pixel's RGB by more than 20 in any channel. -/
def bgDiffFrac (f : Img) : ℚ :=
  Rat.divInt ((countPx f fun p => rgbDiffGt20 p (f.px 0 0) : ℕ) : ℤ) ((f.width * f.height : ℕ) : ℤ)

/-- `is_empty_frame(img, threshold)` of `src/spritebake.py`.

On a zero-size raster numpy produces `nan` ratios (with a warning, not an
exception), every `nan` comparison is false, and control reaches
`bg = rgb[0, 0]`, which raises `IndexError`; the zero-size guard below models
exactly that observable outcome. -/
def is_empty_frame (f : Img) (threshold : ℚ) : Except String Bool :=
  if f.width * f.height = 0 then Except.error "IndexError"
  else if threshold < alphaHiFrac f ∧ Rat.divInt 1 2 < alphaLoFrac f then Except.ok false
  else if alphaHiFrac f < threshold then Except.ok true
  else Except.ok (decide (bgDiffFrac f < threshold))

/-- Alpha sum of the rectangular region `[x0, x0+xn) × [y0, y0+yn)`. -/
def regionAlphaSum (f : Img) (x0 y0 xn yn : ℕ) : ℕ :=
  ((List.range yn).map fun dy =>
    ((List.range xn).map fun dx => (f.px (x0 + dx) (y0 + dy)).a).sum).sum

/-- Mean alpha (`np.mean(corner)`) of the corner sample anchored at `(x0, y0)`;
numpy's basic slicing clamps the `3×3` sample to `min(3, width) × min(3, height)`
on small rasters. -/
def cornerMean (f : Img) (x0 y0 : ℕ) : ℚ :=
  Rat.divInt ((regionAlphaSum f x0 y0 (min 3 f.width) (min 3 f.height) : ℕ) : ℤ)
    ((min 3 f.width * min 3 f.height : ℕ) : ℤ)

/-- Some corner sample (top-left, top-right, bottom-left, bottom-right) has
mean alpha above 10. -/
def cornerHigh (f : Img) : Prop :=
  10 < cornerMean f 0 0 ∨
  10 < cornerMean f (f.width - min 3 f.width) 0 ∨
  10 < cornerMean f 0 (f.height - min 3 f.height) ∨
  10 < cornerMean f (f.width - min 3 f.width) (f.height - min 3 f.height)

instance cornerHighDec (f : Img) : Decidable (cornerHigh f) := by
  unfold cornerHigh; exact inferInstance

/-- `needs_background_removal(img)` of `src/spritebake.py`.

On a zero-size raster every corner mean and the transparency ratio are numpy
`nan`, every comparison with `nan` is false, and the function returns `False`;
the zero-size guard models that. -/
def needs_background_removal (f : Img) : Bool :=
  if f.width = 0 ∨ f.height = 0 then false
  else if cornerHigh f then true
  else if alphaLoFrac f < Rat.divInt 2 5 then true
  else false

/-- Per-frame label computed by the classification loop of
`stitch_spritesheet` (`if is_empty_frame(img): ... elif
needs_background_removal(img): ...`). -/
inductive Classification where
  | Empty
  | AlreadyTransparent
  | NeedsRemoval
deriving DecidableEq

/-- The classification of one frame: `is_empty_frame` first (with its default
threshold `0.001`), then `needs_background_removal`. -/
def classify (f : Img) : Except String Classification :=
  match is_empty_frame f (Rat.divInt 1 1000) with
  | Except.error e => Except.error e
  | Except.ok true => Except.ok Classification.Empty
  | Except.ok false =>
    if needs_background_removal f then Except.ok Classification.NeedsRemoval
    else Except.ok Classification.AlreadyTransparent

/-- Python truthiness of `x or d` for an optional integer (`None` and `0` are
falsy). -/
def pyOrNat (x : Option ℕ) (d : ℕ) : ℕ :=
  match x with
  | none => d
  | some n => if n = 0 then d else n

/-- `num_workers = min(len(frames_needing_removal), os.cpu_count() or 4)`
(line 189 of `src/spritebake.py`); `cpuCount` is `os.cpu_count()`. -/
def num_workers (jobs : ℕ) (cpuCount : Option ℕ) : ℕ :=
  min jobs (pyOrNat cpuCount 4)

/-- Pillow's `MULDIV255` rounding helper: `round(a * b / 255)` computed as
`tmp = a*b + 128; ((tmp >> 8) + tmp) >> 8` (libImaging `Paste.c`). -/
def mulDiv255 (a b : ℕ) : ℕ :=
  (a * b + 128 + (a * b + 128) / 256) / 256

/-- Pillow's per-channel `BLEND(mask, in1, in2)`:
`MULDIV255(in1, 255 - mask) + MULDIV255(in2, mask)`. -/
def blendChan (d s m : ℕ) : ℕ :=
  mulDiv255 d (255 - m) + mulDiv255 s m

/-- One destination pixel after `Image.paste(src, box, src)`: every channel of
the destination (alpha included) is blended against the source with the
source pixel's own alpha as the mask. -/
def blend (d s : Pix) : Pix :=
  ⟨blendChan d.r s.r s.a, blendChan d.g s.g s.a, blendChan d.b s.b s.a,
   blendChan d.a s.a s.a⟩

/-- `dst.paste(src, (x0, y0), src)`: inside the source rectangle the
destination is mask-blended with the source, elsewhere (and outside the
canvas, which Pillow clips and nothing ever reads) it is unchanged. -/
def pasteAt (dst src : Img) (x0 y0 : ℕ) : Img :=
  ⟨dst.width, dst.height, fun x y =>
    if x0 ≤ x ∧ x < x0 + src.width ∧ y0 ≤ y ∧ y < y0 + src.height then
      blend (dst.px x y) (src.px (x - x0) (y - y0))
    else dst.px x y⟩

/-- The paste loop of `stitch_spritesheet`: frame at running index `i` goes to
pixel offset `((i % cols) * w, (i // cols) * h)`. -/
def pasteFrames (cols w h : ℕ) : ℕ → List Img → Img → Img
  | _, [], sheet => sheet
  | i, img :: rest, sheet =>
      pasteFrames cols w h (i + 1) rest
        (pasteAt sheet img (i % cols * w) (i / cols * h))

/-- `math.ceil(math.sqrt(n))` (exact for every memory-representable frame
count). -/
def ceilSqrt (n : ℕ) : ℕ :=
  if Nat.sqrt n * Nat.sqrt n = n then Nat.sqrt n else Nat.sqrt n + 1

/-- `if cols is None: cols = math.ceil(math.sqrt(n))`. -/
def gridCols (colsOpt : Option ℕ) (n : ℕ) : ℕ :=
  match colsOpt with
  | none => ceilSqrt n
  | some c => c

/-- `img.resize((t, t), Image.LANCZOS)`: a square `t×t` raster whose pixel
values come from the Lanczos resampling kernel, kept abstract as a parameter
(floating-point resampling internals are outside the claims). -/
def Img.resize (g : Img) (t : ℕ) (kernel : Img → ℕ → ℕ → ℕ → Pix) : Img :=
  ⟨t, t, fun x y => kernel g t x y⟩

/-- Lines 157–159 of `src/spritebake.py`:
`if target_size and images[0].width > target_size: images = [resize...]`.
`None` and `0` are falsy; the decision reads only frame 0's width.  (The
empty-list arm is unreachable: the caller returns before this point when no
frames were found.) -/
def downscaleStep (kernel : Img → ℕ → ℕ → ℕ → Pix) (target : Option ℕ)
    (images : List Img) : List Img :=
  match target, images with
  | some t, img0 :: rest =>
      if t ≠ 0 ∧ t < img0.width then
        (img0 :: rest).map fun g => Img.resize g t kernel
      else img0 :: rest
  | _, imgs => imgs

/-- Net per-frame effect of the `remove_bg` block when `rembg` imports:
Empty frames are replaced by a same-size transparent raster, NeedsRemoval
frames go through the segmenter, AlreadyTransparent frames pass unchanged
(the thread-pool merge is keyed by frame index, so the net effect is
positional; the merge itself is modelled by `mergeResults`). -/
def runRemoval (segf : Img → Img) (images : List Img) :
    Except String (List Img) :=
  match images.mapM classify with
  | Except.error e => Except.error e
  | Except.ok cs => Except.ok ((images.zip cs).map fun ic =>
      match ic.2 with
      | Classification.Empty => Img.transparent ic.1.width ic.1.height
      | Classification.NeedsRemoval => segf ic.1
      | Classification.AlreadyTransparent => ic.1)

/-- The `if remove_bg: try ... except ImportError` block.  `seg = none` models
`rembg` being unavailable: the `ImportError` is caught, a warning is printed
(second component `true`), and the frames are left untouched. -/
def removalPhase (remove_bg : Bool) (seg : Option (Img → Img))
    (images : List Img) : Except String (List Img × Bool) :=
  if remove_bg then
    match seg with
    | none => Except.ok (images, true)
    | some segf =>
      match runRemoval segf images with
      | Except.error e => Except.error e
      | Except.ok l => Except.ok (l, false)
  else Except.ok (images, false)

/-- Result of `stitch_spritesheet`: the saved sheet plus whether the
`rembg not installed` warning was printed. -/
structure StitchOut where
  sheet : Img
  rembgWarned : Bool

/-- `stitch_spritesheet(frames_dir, output_path, cols, remove_bg, target_size)`
of `src/spritebake.py`, with the already-decoded frame list standing for the
directory of PNGs.  An explicit `cols = 0` would make `math.ceil(n / cols)`
raise `ZeroDivisionError`; frame dimensions are never checked — the grid
geometry comes from frame 0 alone. -/
def stitch_spritesheet (kernel : Img → ℕ → ℕ → ℕ → Pix) (images : List Img)
    (colsOpt : Option ℕ) (remove_bg : Bool) (seg : Option (Img → Img))
    (target_size : Option ℕ) : Except String StitchOut :=
  if images.isEmpty then Except.error "No frames found"
  else
    match removalPhase remove_bg seg (downscaleStep kernel target_size images) with
    | Except.error e => Except.error e
    | Except.ok (images2, warned) =>
      match images2 with
      | [] => Except.error "IndexError"
      | img0 :: _ =>
        let w := img0.width
        let h := img0.height
        let n := images2.length
        let cols := gridCols colsOpt n
        if cols = 0 then Except.error "ZeroDivisionError"
        else
          let rows := (n + cols - 1) / cols
          Except.ok ⟨pasteFrames cols w h 0 images2
            (Img.transparent (cols * w) (rows * h)), warned⟩

/-- Re-slicing operation of the round-trip claim: cell `(i % cols, i // cols)`
of size `w×h` cropped out of the sheet. -/
def sliceCell (sheet : Img) (cols w h i : ℕ) : Img :=
  ⟨w, h, fun x y => sheet.px (i % cols * w + x) (i / cols * h + y)⟩

/-- A pixel the alpha-mask blit reproduces exactly: in-range channels that are
either fully opaque, or fully transparent black. -/
def PixLossless (p : Pix) : Prop :=
  p.r ≤ 255 ∧ p.g ≤ 255 ∧ p.b ≤ 255 ∧ (p.a = 255 ∨ p = ⟨0, 0, 0, 0⟩)

instance pixLosslessDec (p : Pix) : Decidable (PixLossless p) := by
  unfold PixLossless; exact inferInstance

/-- The `as_completed` merge loop of `stitch_spritesheet`
(`images[idx] = result`, in whatever order jobs complete). -/
def mergeResults (images : List Img) (completed : List (ℕ × Img)) : List Img :=
  completed.foldl (fun imgs job => imgs.set job.1 job.2) images

/-- A one-by-three frame holding an opaque silhouette pixel over a transparent
background: opaque ratio `1/3`, transparent ratio `2/3`, every clamped corner
sample has mean alpha `85`. -/
def frameSilhouette : Img :=
  ⟨1, 3, fun _ y => if y = 0 then ⟨255, 255, 255, 255⟩ else ⟨0, 0, 0, 0⟩⟩

/-- Coordinate `(X, Y)` lies inside the grid cell of linear index `j`. -/
def inCell (cols w h j X Y : ℕ) : Prop :=
  j % cols * w ≤ X ∧ X < j % cols * w + w ∧ j / cols * h ≤ Y ∧ Y < j / cols * h + h

/-- Distinctly coloured result frames for the merge witness. -/
def frame2 : Img := ⟨1, 1, fun _ _ => ⟨2, 2, 2, 255⟩⟩

def frame5 : Img := ⟨1, 1, fun _ _ => ⟨5, 5, 5, 255⟩⟩

def frame7 : Img := ⟨1, 1, fun _ _ => ⟨7, 7, 7, 255⟩⟩

def baseFrames : List Img := List.replicate 8 (Img.transparent 1 1)

def jobsSubmitted : List (ℕ × Img) := [(7, frame7), (2, frame2), (5, frame5)]

def jobsCompleted : List (ℕ × Img) := [(2, frame2), (7, frame7), (5, frame5)]

/-- A one-pixel frame whose only pixel is half transparent. -/
def framePartial : Img := ⟨1, 1, fun _ _ => ⟨200, 0, 0, 128⟩⟩

/-- An arbitrary resampling kernel for concrete runs. -/
def kernelZero : Img → ℕ → ℕ → ℕ → Pix := fun _ _ _ _ => ⟨0, 0, 0, 0⟩

/-- A one-by-one opaque white frame. -/
def frameSmall : Img := ⟨1, 1, fun _ _ => ⟨255, 255, 255, 255⟩⟩

/-- A two-by-two opaque black frame. -/
def frameBig : Img := ⟨2, 2, fun _ _ => ⟨0, 0, 0, 255⟩⟩

/-- A four-by-three frame, wider than the downscale target. -/
def frameWide : Img := ⟨4, 3, fun _ _ => ⟨9, 9, 9, 255⟩⟩

/-- A six-by-one frame in tail position. -/
def frameTall : Img := ⟨6, 1, fun _ _ => ⟨8, 8, 8, 255⟩⟩

/-- C3: on every non-zero-size frame, the Empty test is exactly the guarded
trichotomy of the spec: a visible silhouette (opaque ratio above 0.001 and
transparent ratio above 0.5) is not Empty; opaque ratio below 0.001 is Empty
regardless of RGB content; otherwise the frame is Empty iff the fraction of
pixels whose RGB differs from the top-left reference by more than 20 in some
channel is below 0.001. -/
theorem C3_empty_test (f : Img) (h : f.width * f.height ≠ 0) :
    ((Rat.divInt 1 1000 < alphaHiFrac f ∧ Rat.divInt 1 2 < alphaLoFrac f) →
      is_empty_frame f (Rat.divInt 1 1000) = Except.ok false) ∧
    (alphaHiFrac f < Rat.divInt 1 1000 →
      is_empty_frame f (Rat.divInt 1 1000) = Except.ok true) ∧
    (¬(Rat.divInt 1 1000 < alphaHiFrac f ∧ Rat.divInt 1 2 < alphaLoFrac f) →
      ¬(alphaHiFrac f < Rat.divInt 1 1000) →
      (is_empty_frame f (Rat.divInt 1 1000) = Except.ok true ↔
        bgDiffFrac f < Rat.divInt 1 1000)) := by
  have e : is_empty_frame f (Rat.divInt 1 1000) =
      if Rat.divInt 1 1000 < alphaHiFrac f ∧ Rat.divInt 1 2 < alphaLoFrac f then
        Except.ok false
      else if alphaHiFrac f < Rat.divInt 1 1000 then Except.ok true
      else Except.ok (decide (bgDiffFrac f < Rat.divInt 1 1000)) := by
    unfold is_empty_frame
    rw [if_neg h]
  refine ⟨fun hc => ?_, fun hlo => ?_, fun h1 h2 => ?_⟩
  · rw [e, if_pos hc]
  · rw [e, if_neg (fun hc => absurd hc.1 (lt_asymm hlo)), if_pos hlo]
  · rw [e, if_neg h1, if_neg h2]
    simp

/-- Witness for C3 at a concrete silhouette frame. -/
theorem C3_empty_test_witness :
    is_empty_frame frameSilhouette (Rat.divInt 1 1000) = Except.ok false :=
  (C3_empty_test frameSilhouette (by decide)).1 (by decide)

/-- C4: a non-Empty frame classifies NeedsRemoval exactly when some corner
sample has mean alpha above 10 or the whole-frame transparent ratio is below
0.4; in particular a frame with a high corner sample is never
AlreadyTransparent. -/
theorem C4_corner_veto (f : Img)
    (h : is_empty_frame f (Rat.divInt 1 1000) = Except.ok false) :
    (classify f = Except.ok Classification.NeedsRemoval ↔
      (cornerHigh f ∨ alphaLoFrac f < Rat.divInt 2 5)) ∧
    (cornerHigh f → classify f ≠ Except.ok Classification.AlreadyTransparent) := by
  have hsz : ¬(f.width = 0 ∨ f.height = 0) := by
    intro hz
    have h0 : f.width * f.height = 0 := by
      rcases hz with h0 | h0 <;> simp [h0]
    unfold is_empty_frame at h
    rw [if_pos h0] at h
    exact Except.noConfusion h
  have hc : classify f =
      if needs_background_removal f then Except.ok Classification.NeedsRemoval
      else Except.ok Classification.AlreadyTransparent := by
    unfold classify
    rw [h]
  have hn : needs_background_removal f = true ↔
      (cornerHigh f ∨ alphaLoFrac f < Rat.divInt 2 5) := by
    unfold needs_background_removal
    rw [if_neg hsz]
    by_cases h1 : cornerHigh f
    · simp [h1]
    · by_cases h2 : alphaLoFrac f < Rat.divInt 2 5 <;> simp [h1, h2]
  constructor
  · rw [hc]
    by_cases hb : needs_background_removal f
    · simp only [if_pos hb]
      simp [hn.mp hb]
    · simp only [if_neg hb]
      have hr : ¬(cornerHigh f ∨ alphaLoFrac f < Rat.divInt 2 5) := fun hr =>
        hb (hn.mpr hr)
      simp [hr]
  · intro hch heq
    rw [hc, if_pos (hn.mpr (Or.inl hch))] at heq
    simp at heq

/-- Witness for C4 at the concrete silhouette frame, whose corner samples all
have mean alpha `85 > 10`. -/
theorem C4_corner_veto_witness :
    classify frameSilhouette = Except.ok Classification.NeedsRemoval ∧
    classify frameSilhouette ≠ Except.ok Classification.AlreadyTransparent :=
  ⟨((C4_corner_veto frameSilhouette (by decide)).1).mpr (Or.inl (by decide)),
   (C4_corner_veto frameSilhouette (by decide)).2 (by decide)⟩

/-- C8: classifying a zero-size frame fails with an error instead of returning
a label (numpy's `nan` ratios let control reach `rgb[0, 0]`, which raises
`IndexError` and aborts classification). -/
theorem C8_zero_size (f : Img) (h : f.width * f.height = 0) :
    classify f = Except.error "IndexError" := by
  have he : is_empty_frame f (Rat.divInt 1 1000) = Except.error "IndexError" := by
    unfold is_empty_frame
    rw [if_pos h]
  unfold classify
  rw [he]

/-- Witness for C8 at a concrete zero-width frame. -/
theorem C8_zero_size_witness :
    classify (Img.transparent 0 5) = Except.error "IndexError" :=
  C8_zero_size (Img.transparent 0 5) (by decide)

/-- C9 counterexample: with 10 jobs on a 16-way machine the pool holds 10
workers, not the `min(jobs, parallelism, 4) = 4` the claim states; the
constant 4 in the source is only the fallback for an unknown CPU count, not a
cap. -/
theorem C9_counterexample :
    num_workers 10 (some 16) = 10 ∧ min 10 (min 16 4) = 4 ∧
    4 < num_workers 10 (some 16) := by decide

/-- C9 amended: the pool size is `min(jobs, cpu_count)` when the CPU count is
known (and positive), and `min(jobs, 4)` when `os.cpu_count()` returns `None`;
it never exceeds the job count, and never exceeds a known CPU count — but 4
is only the unknown-parallelism fallback, not a general cap. -/
theorem C9_worker_pool (jobs : ℕ) (cpu : Option ℕ) (_hjobs : 1 ≤ jobs) :
    num_workers jobs cpu ≤ jobs ∧
    (∀ c, cpu = some c → 0 < c →
      num_workers jobs cpu = min jobs c ∧ num_workers jobs cpu ≤ c) ∧
    (cpu = none → num_workers jobs cpu = min jobs 4 ∧ num_workers jobs cpu ≤ 4) := by
  refine ⟨Nat.min_le_left _ _, fun c hc h0 => ?_, fun hc => ?_⟩
  · subst hc
    have hne : c ≠ 0 := Nat.pos_iff_ne_zero.mp h0
    constructor
    · simp [num_workers, pyOrNat, hne]
    · simp only [num_workers, pyOrNat, hne, if_false]
      exact Nat.min_le_right jobs c
  · subst hc
    exact ⟨rfl, Nat.min_le_right _ _⟩

/-- Witness for C9 at 3 jobs on a 2-way machine. -/
theorem C9_worker_pool_witness :
    num_workers 3 (some 2) ≤ 3 ∧ num_workers 3 (some 2) = min 3 2 ∧
    num_workers 3 (some 2) ≤ 2 :=
  ⟨(C9_worker_pool 3 (some 2) (by decide)).1,
   ((C9_worker_pool 3 (some 2) (by decide)).2.1 2 rfl (by decide)).1,
   ((C9_worker_pool 3 (some 2) (by decide)).2.1 2 rfl (by decide)).2⟩

/-! Helper lemmas about the grid geometry and the paste fold. -/

theorem ceilSqrt_pos (n : ℕ) (h : 0 < n) : 0 < ceilSqrt n := by
  unfold ceilSqrt
  split
  · exact Nat.sqrt_pos.mpr h
  · exact Nat.succ_pos _

theorem le_ceilSqrt_sq (n : ℕ) : n ≤ ceilSqrt n * ceilSqrt n := by
  unfold ceilSqrt
  split
  · next he => exact he.ge
  · exact le_of_lt (by simpa [Nat.succ_eq_add_one] using Nat.lt_succ_sqrt n)

theorem ceilSqrt_le (n m : ℕ) (h : n ≤ m * m) : ceilSqrt n ≤ m := by
  unfold ceilSqrt
  split
  · exact (Nat.sqrt_le_sqrt h).trans (le_of_eq (Nat.sqrt_eq m))
  · next he =>
    by_contra hlt
    push_neg at hlt
    have hm : m ≤ Nat.sqrt n := Nat.lt_succ_iff.mp hlt
    have h1 : m * m ≤ Nat.sqrt n * Nat.sqrt n := Nat.mul_le_mul hm hm
    have hn : n = m * m := le_antisymm h (h1.trans (Nat.sqrt_le n))
    have hs : Nat.sqrt n = m := by rw [hn, Nat.sqrt_eq]
    exact he (by rw [hs, ← hn])

theorem ceil_div_bounds (n cols : ℕ) (h1 : 0 < n) (h2 : 0 < cols) :
    n ≤ cols * ((n + cols - 1) / cols) ∧
    cols * ((n + cols - 1) / cols) < n + cols := by
  have e := Nat.div_add_mod (n + cols - 1) cols
  have hm : (n + cols - 1) % cols < cols := Nat.mod_lt _ h2
  set q := (n + cols - 1) / cols with hq
  set r := (n + cols - 1) % cols with hr
  set t := cols * q with ht
  omega

theorem mulDiv255_zero_left (b : ℕ) : mulDiv255 0 b = 0 := by
  unfold mulDiv255
  rw [Nat.zero_mul]

set_option maxRecDepth 4096 in
theorem mulDiv255_255 : ∀ a, a ≤ 255 → mulDiv255 a 255 = a := by decide

theorem blend_transparent_eq (p : Pix) (hp : PixLossless p) :
    blend ⟨0, 0, 0, 0⟩ p = p := by
  obtain ⟨r, g, b, a⟩ := p
  obtain ⟨hr, hg, hb, hcase⟩ := hp
  rcases hcase with ha | hz
  · simp only at ha
    subst ha
    show Pix.mk (blendChan 0 r 255) (blendChan 0 g 255) (blendChan 0 b 255)
        (blendChan 0 255 255) = Pix.mk r g b 255
    unfold blendChan
    rw [Nat.sub_self, mulDiv255_zero_left, mulDiv255_255 r hr, mulDiv255_255 g hg,
      mulDiv255_255 b hb, mulDiv255_255 255 le_rfl]
    simp
  · simp only [Pix.mk.injEq] at hz
    obtain ⟨rfl, rfl, rfl, rfl⟩ := hz
    decide

theorem pasteFrames_width (cols w h : ℕ) (l : List Img) :
    ∀ (k : ℕ) (base : Img), (pasteFrames cols w h k l base).width = base.width := by
  induction l with
  | nil => intro k base; rfl
  | cons img rest ih =>
    intro k base
    rw [pasteFrames]
    exact ih (k + 1) _

theorem pasteFrames_height (cols w h : ℕ) (l : List Img) :
    ∀ (k : ℕ) (base : Img), (pasteFrames cols w h k l base).height = base.height := by
  induction l with
  | nil => intro k base; rfl
  | cons img rest ih =>
    intro k base
    rw [pasteFrames]
    exact ih (k + 1) _

theorem band_eq {w a b X : ℕ} (ha1 : a * w ≤ X) (ha2 : X < a * w + w)
    (hb1 : b * w ≤ X) (hb2 : X < b * w + w) : a = b := by
  rcases Nat.lt_trichotomy a b with hab | hab | hab
  · have h1 : (a + 1) * w ≤ b * w := mul_le_mul_right' (Nat.succ_le_of_lt hab) w
    rw [Nat.add_mul, Nat.one_mul] at h1
    omega
  · exact hab
  · have h1 : (b + 1) * w ≤ a * w := mul_le_mul_right' (Nat.succ_le_of_lt hab) w
    rw [Nat.add_mul, Nat.one_mul] at h1
    omega

theorem inCell_unique {cols w h j j' X Y : ℕ} (h1 : inCell cols w h j X Y)
    (h2 : inCell cols w h j' X Y) : j = j' := by
  obtain ⟨a1, a2, a3, a4⟩ := h1
  obtain ⟨b1, b2, b3, b4⟩ := h2
  have hm : j % cols = j' % cols := band_eq a1 a2 b1 b2
  have hd : j / cols = j' / cols := band_eq a3 a4 b3 b4
  have e1 := Nat.div_add_mod j cols
  have e2 := Nat.div_add_mod j' cols
  rw [← e1, ← e2, hm, hd]

theorem pasteFrames_px_not_covered (cols w h : ℕ) (l : List Img) :
    ∀ (k : ℕ) (base : Img), (∀ f ∈ l, f.width = w ∧ f.height = h) →
    ∀ X Y, (∀ j, k ≤ j → j < k + l.length → ¬ inCell cols w h j X Y) →
    (pasteFrames cols w h k l base).px X Y = base.px X Y := by
  induction l with
  | nil => intro k base _ X Y _; rfl
  | cons img rest ih =>
    intro k base hu X Y hmiss
    have hw : img.width = w := (hu img (List.mem_cons_self img rest)).1
    have hh : img.height = h := (hu img (List.mem_cons_self img rest)).2
    rw [pasteFrames]
    rw [ih (k + 1) _ (fun f hf => hu f (List.mem_cons_of_mem _ hf)) X Y
      (fun j hj1 hj2 => hmiss j (by omega) (by simp only [List.length_cons]; omega))]
    show (if k % cols * w ≤ X ∧ X < k % cols * w + img.width ∧
        k / cols * h ≤ Y ∧ Y < k / cols * h + img.height then
      blend (base.px X Y) (img.px (X - k % cols * w) (Y - k / cols * h))
      else base.px X Y) = base.px X Y
    rw [hw, hh]
    exact if_neg (fun hc => hmiss k le_rfl (by simp) hc)

theorem pasteFrames_px_covered (cols w h : ℕ) (l : List Img) :
    ∀ (k : ℕ) (base : Img) (i : ℕ) (hi : i < l.length),
    (∀ f ∈ l, f.width = w ∧ f.height = h) →
    ∀ X Y, inCell cols w h (k + i) X Y →
    (pasteFrames cols w h k l base).px X Y =
      blend (base.px X Y)
        ((l.get ⟨i, hi⟩).px (X - (k + i) % cols * w) (Y - (k + i) / cols * h)) := by
  induction l with
  | nil => intro k base i hi; exact absurd hi (by simp)
  | cons img rest ih =>
    intro k base i hi hu X Y hin
    have hw : img.width = w := (hu img (List.mem_cons_self img rest)).1
    have hh : img.height = h := (hu img (List.mem_cons_self img rest)).2
    match i with
    | 0 =>
      rw [Nat.add_zero] at hin
      rw [pasteFrames]
      rw [pasteFrames_px_not_covered cols w h rest (k + 1) _
        (fun f hf => hu f (List.mem_cons_of_mem _ hf)) X Y
        (fun j hj1 hj2 hc => by have := inCell_unique hc hin; omega)]
      show (if k % cols * w ≤ X ∧ X < k % cols * w + img.width ∧
          k / cols * h ≤ Y ∧ Y < k / cols * h + img.height then
        blend (base.px X Y) (img.px (X - k % cols * w) (Y - k / cols * h))
        else base.px X Y) = _
      rw [hw, hh]
      exact (if_pos hin).trans (by rw [Nat.add_zero]; exact rfl)
    | i' + 1 =>
      have heq : k + (i' + 1) = (k + 1) + i' := by omega
      rw [heq] at hin
      rw [pasteFrames]
      rw [ih (k + 1) _ i' (by simpa using hi)
        (fun f hf => hu f (List.mem_cons_of_mem _ hf)) X Y hin]
      have hkne : ¬ inCell cols w h k X Y := fun hc => by
        have := inCell_unique hc hin
        omega
      have hbase : (pasteAt base img (k % cols * w) (k / cols * h)).px X Y =
          base.px X Y := by
        show (if k % cols * w ≤ X ∧ X < k % cols * w + img.width ∧
            k / cols * h ≤ Y ∧ Y < k / cols * h + img.height then
          blend (base.px X Y) (img.px (X - k % cols * w) (Y - k / cols * h))
          else base.px X Y) = base.px X Y
        rw [hw, hh]
        exact if_neg hkne
      rw [hbase, heq]
      rfl

theorem downscaleStep_none (kernel : Img → ℕ → ℕ → ℕ → Pix) (images : List Img) :
    downscaleStep kernel none images = images := by
  cases images <;> rfl

theorem downscaleStep_ne_nil (kernel : Img → ℕ → ℕ → ℕ → Pix) (ts : Option ℕ)
    (images : List Img) (h : images ≠ []) : downscaleStep kernel ts images ≠ [] := by
  cases ts with
  | none => rw [downscaleStep_none]; exact h
  | some t =>
    cases images with
    | nil => exact absurd rfl h
    | cons i0 r0 =>
      have he : downscaleStep kernel (some t) (i0 :: r0) =
          if t ≠ 0 ∧ t < i0.width then
            (i0 :: r0).map (fun g => Img.resize g t kernel)
          else i0 :: r0 := rfl
      rw [he]
      split <;> simp

theorem removalPhase_false (seg : Option (Img → Img)) (l : List Img) :
    removalPhase false seg l = Except.ok (l, false) := rfl

theorem removalPhase_true_none (l : List Img) :
    removalPhase true none l = Except.ok (l, true) := rfl

theorem gridCols_ne_zero (colsOpt : Option ℕ) (n : ℕ) (hn : 0 < n)
    (hc : colsOpt ≠ some 0) : gridCols colsOpt n ≠ 0 := by
  cases colsOpt with
  | none => exact (ceilSqrt_pos n hn).ne'
  | some c => exact fun h0 => hc (congrArg some h0)

/-- Normal form of `stitch_spritesheet` when removal is not requested and no
target size is given. -/
theorem stitch_no_removal_eq (kernel : Img → ℕ → ℕ → ℕ → Pix)
    (seg : Option (Img → Img)) (colsOpt : Option ℕ) (img0 : Img) (rest : List Img)
    (hc : gridCols colsOpt (rest.length + 1) ≠ 0) :
    stitch_spritesheet kernel (img0 :: rest) colsOpt false seg none =
      Except.ok ⟨pasteFrames (gridCols colsOpt (rest.length + 1)) img0.width
          img0.height 0 (img0 :: rest)
          (Img.transparent (gridCols colsOpt (rest.length + 1) * img0.width)
            ((rest.length + 1 + gridCols colsOpt (rest.length + 1) - 1) /
                gridCols colsOpt (rest.length + 1) * img0.height)),
        false⟩ := by
  unfold stitch_spritesheet
  rw [downscaleStep_none, removalPhase_false]
  simp only [List.isEmpty_cons, Bool.false_eq_true, if_false, List.length_cons]
  rw [if_neg hc]

/-- Specialization of `stitch_no_removal_eq` to the automatic near-square
column count. -/
theorem stitch_auto_eq (kernel : Img → ℕ → ℕ → ℕ → Pix)
    (seg : Option (Img → Img)) (img0 : Img) (rest : List Img) :
    stitch_spritesheet kernel (img0 :: rest) none false seg none =
      Except.ok ⟨pasteFrames (ceilSqrt (rest.length + 1)) img0.width
          img0.height 0 (img0 :: rest)
          (Img.transparent (ceilSqrt (rest.length + 1) * img0.width)
            ((rest.length + 1 + ceilSqrt (rest.length + 1) - 1) /
                ceilSqrt (rest.length + 1) * img0.height)),
        false⟩ :=
  stitch_no_removal_eq kernel seg none img0 rest
    (gridCols_ne_zero none _ (Nat.succ_pos _) (by simp))

theorem mergeResults_not_mem (images : List Img) (completed : List (ℕ × Img))
    (i : ℕ) (h : i ∉ completed.map Prod.fst) :
    (mergeResults images completed)[i]? = images[i]? := by
  induction completed generalizing images with
  | nil => rfl
  | cons job rest ih =>
    simp only [List.map_cons, List.mem_cons, not_or] at h
    show (mergeResults (images.set job.1 job.2) rest)[i]? = images[i]?
    rw [ih (images.set job.1 job.2) h.2]
    exact List.getElem?_set_ne (fun he => h.1 he.symm)

theorem mergeResults_mem (images : List Img) (completed : List (ℕ × Img))
    (i : ℕ) (r : Img) (hnd : (completed.map Prod.fst).Nodup)
    (hmem : (i, r) ∈ completed) (hlen : i < images.length) :
    (mergeResults images completed)[i]? = some r := by
  induction completed generalizing images with
  | nil => cases hmem
  | cons job rest ih =>
    show (mergeResults (images.set job.1 job.2) rest)[i]? = some r
    rcases List.mem_cons.mp hmem with he | hm
    · subst he
      have hni : i ∉ rest.map Prod.fst := by
        simpa using (List.nodup_cons.mp hnd).1
      rw [mergeResults_not_mem _ rest i hni]
      exact List.getElem?_set_eq_of_lt r hlen
    · have hnd2 : (rest.map Prod.fst).Nodup := (List.nodup_cons.mp hnd).2
      exact ih (images.set job.1 job.2) hnd2 hm
        (by simpa [List.length_set] using hlen)

theorem mergeResults_length (images : List Img) (completed : List (ℕ × Img)) :
    (mergeResults images completed).length = images.length := by
  induction completed generalizing images with
  | nil => rfl
  | cons job rest ih =>
    show (mergeResults (images.set job.1 job.2) rest).length = images.length
    rw [ih, List.length_set]

/-- C6: however the removal jobs complete, the merge writes each result at the
position equal to its frame index, leaves every other index untouched, and
preserves the sequence length — so the final sequence is ordered by index,
never by submission or completion order. -/
theorem C6_merge_by_index (images : List Img) (jobs completed : List (ℕ × Img))
    (hperm : completed.Perm jobs) (hnd : (jobs.map Prod.fst).Nodup) :
    (∀ p ∈ jobs, p.1 < images.length →
      (mergeResults images completed)[p.1]? = some p.2) ∧
    (∀ i : ℕ, i ∉ jobs.map Prod.fst →
      (mergeResults images completed)[i]? = images[i]?) ∧
    (mergeResults images completed).length = images.length := by
  have hndc : (completed.map Prod.fst).Nodup := ((hperm.map Prod.fst).nodup_iff).mpr hnd
  refine ⟨fun p hp hlen => ?_, fun i hi => ?_, mergeResults_length images completed⟩
  · exact mergeResults_mem images completed p.1 p.2 hndc (hperm.mem_iff.mpr hp) hlen
  · exact mergeResults_not_mem images completed i
      (fun hc => hi (((hperm.map Prod.fst).mem_iff).mp hc))

/-- Witness for C6: jobs submitted for indices `[7, 2, 5]`, completing in the
order `[2, 7, 5]`, still land at positions 2, 5 and 7, and position 3 keeps
its original frame. -/
theorem C6_merge_by_index_witness :
    (mergeResults baseFrames jobsCompleted)[2]? = some frame2 ∧
    (mergeResults baseFrames jobsCompleted)[5]? = some frame5 ∧
    (mergeResults baseFrames jobsCompleted)[7]? = some frame7 ∧
    (mergeResults baseFrames jobsCompleted)[3]? = baseFrames[3]? := by
  have hperm : jobsCompleted.Perm jobsSubmitted :=
    List.Perm.swap (7, frame7) (2, frame2) [(5, frame5)]
  have hthm := C6_merge_by_index baseFrames jobsSubmitted jobsCompleted hperm (by decide)
  refine ⟨hthm.1 (2, frame2) ?_ (by decide), hthm.1 (5, frame5) ?_ (by decide),
    hthm.1 (7, frame7) ?_ (by decide), hthm.2.1 3 (by decide)⟩
  · simp [jobsSubmitted]
  · simp [jobsSubmitted]
  · simp [jobsSubmitted]

/-- C5: packing a non-empty uniform-size frame list with no explicit column
count succeeds with `cols = ceil(sqrt n)` (the least `m` with `n ≤ m*m`),
`rows = ceil(n / cols)` (`cols * rows` is the least multiple of `cols`
reaching `n`), a `cols*w × rows*h` canvas, frame `i` blitted into cell
`(i % cols, i / cols)`, and every trailing cell fully transparent. -/
theorem C5_grid_layout (kernel : Img → ℕ → ℕ → ℕ → Pix) (images : List Img)
    (w h : ℕ) (hne : images ≠ [])
    (hu : ∀ f ∈ images, f.width = w ∧ f.height = h) :
    ∃ sheet : Img,
      stitch_spritesheet kernel images none false none none =
        Except.ok ⟨sheet, false⟩ ∧
      (images.length ≤ ceilSqrt images.length * ceilSqrt images.length ∧
        ∀ m : ℕ, images.length ≤ m * m → ceilSqrt images.length ≤ m) ∧
      (images.length ≤ ceilSqrt images.length *
          ((images.length + ceilSqrt images.length - 1) / ceilSqrt images.length) ∧
        ceilSqrt images.length *
            ((images.length + ceilSqrt images.length - 1) / ceilSqrt images.length) <
          images.length + ceilSqrt images.length) ∧
      sheet.width = ceilSqrt images.length * w ∧
      sheet.height =
        (images.length + ceilSqrt images.length - 1) / ceilSqrt images.length * h ∧
      (∀ i : ℕ, ∀ hi : i < images.length, ∀ x, x < w → ∀ y, y < h →
        sheet.px (i % ceilSqrt images.length * w + x)
            (i / ceilSqrt images.length * h + y) =
          blend ⟨0, 0, 0, 0⟩ ((images.get ⟨i, hi⟩).px x y)) ∧
      (∀ j : ℕ, images.length ≤ j →
        j < ceilSqrt images.length *
            ((images.length + ceilSqrt images.length - 1) / ceilSqrt images.length) →
        ∀ x, x < w → ∀ y, y < h →
        sheet.px (j % ceilSqrt images.length * w + x)
            (j / ceilSqrt images.length * h + y) = ⟨0, 0, 0, 0⟩) := by
  obtain ⟨img0, rest, rfl⟩ := List.exists_cons_of_ne_nil hne
  obtain ⟨hw0, hh0⟩ := hu img0 (List.mem_cons_self _ _)
  subst hw0
  subst hh0
  simp only [List.length_cons]
  refine ⟨_, stitch_auto_eq kernel none img0 rest, ?_, ?_, ?_, ?_, ?_, ?_⟩
  · exact ⟨le_ceilSqrt_sq _, fun m hm => ceilSqrt_le _ m hm⟩
  · exact ceil_div_bounds _ _ (Nat.succ_pos _)
      (ceilSqrt_pos _ (Nat.succ_pos _))
  · rw [pasteFrames_width]
    exact rfl
  · rw [pasteFrames_height]
    exact rfl
  · intro i hi x hx y hy
    have hcell : inCell (ceilSqrt (rest.length + 1)) img0.width img0.height i
        (i % ceilSqrt (rest.length + 1) * img0.width + x)
        (i / ceilSqrt (rest.length + 1) * img0.height + y) :=
      ⟨Nat.le_add_right _ _, Nat.add_lt_add_left hx _,
       Nat.le_add_right _ _, Nat.add_lt_add_left hy _⟩
    rw [pasteFrames_px_covered (ceilSqrt (rest.length + 1)) img0.width img0.height
      (img0 :: rest) 0 _ i hi hu _ _ (by rw [Nat.zero_add]; exact hcell)]
    simp only [Nat.zero_add, Nat.add_sub_cancel_left]
    rfl
  · intro j hj hjlt x hx y hy
    have hcell : inCell (ceilSqrt (rest.length + 1)) img0.width img0.height j
        (j % ceilSqrt (rest.length + 1) * img0.width + x)
        (j / ceilSqrt (rest.length + 1) * img0.height + y) :=
      ⟨Nat.le_add_right _ _, Nat.add_lt_add_left hx _,
       Nat.le_add_right _ _, Nat.add_lt_add_left hy _⟩
    rw [pasteFrames_px_not_covered (ceilSqrt (rest.length + 1)) img0.width img0.height
      (img0 :: rest) 0 _ hu _ _
      (fun j2 hj2a hj2b hc => by
        have := inCell_unique hc hcell
        simp only [Nat.zero_add, List.length_cons] at hj2b
        omega)]
    rfl

/-- Witness for C5: five one-pixel frames pack into a `ceil(sqrt 5) = 3` by
`ceil(5/3) = 2` grid; frame 4 lands in cell `(1, 1)` and cell `(2, 1)` stays
transparent. -/
theorem C5_grid_layout_witness :
    (∃ sheet : Img,
      stitch_spritesheet (fun _ _ _ _ => ⟨0, 0, 0, 0⟩)
          [frame2, frame2, frame2, frame2, frame5] none false none none =
        Except.ok ⟨sheet, false⟩ ∧
      (5 ≤ ceilSqrt 5 * ceilSqrt 5 ∧ ∀ m : ℕ, 5 ≤ m * m → ceilSqrt 5 ≤ m) ∧
      (5 ≤ ceilSqrt 5 * ((5 + ceilSqrt 5 - 1) / ceilSqrt 5) ∧
        ceilSqrt 5 * ((5 + ceilSqrt 5 - 1) / ceilSqrt 5) < 5 + ceilSqrt 5) ∧
      sheet.width = ceilSqrt 5 * 1 ∧
      sheet.height = (5 + ceilSqrt 5 - 1) / ceilSqrt 5 * 1 ∧
      (∀ i : ℕ, ∀ hi : i < 5, ∀ x, x < 1 → ∀ y, y < 1 →
        sheet.px (i % ceilSqrt 5 * 1 + x) (i / ceilSqrt 5 * 1 + y) =
          blend ⟨0, 0, 0, 0⟩
            (([frame2, frame2, frame2, frame2, frame5].get ⟨i, hi⟩).px x y)) ∧
      (∀ j : ℕ, 5 ≤ j → j < ceilSqrt 5 * ((5 + ceilSqrt 5 - 1) / ceilSqrt 5) →
        ∀ x, x < 1 → ∀ y, y < 1 →
        sheet.px (j % ceilSqrt 5 * 1 + x) (j / ceilSqrt 5 * 1 + y) =
          ⟨0, 0, 0, 0⟩)) ∧
    ceilSqrt 5 = 3 ∧ (5 + ceilSqrt 5 - 1) / ceilSqrt 5 = 2 ∧
    (4 % ceilSqrt 5, 4 / ceilSqrt 5) = (1, 1) ∧
    (5 % ceilSqrt 5, 5 / ceilSqrt 5) = (2, 1) := by
  have hs : ceilSqrt 5 = 3 := by
    have h5 : Nat.sqrt 5 = 2 := (Nat.eq_sqrt.mpr (by norm_num)).symm
    unfold ceilSqrt
    rw [h5]
    norm_num
  refine ⟨C5_grid_layout (fun _ _ _ _ => ⟨0, 0, 0, 0⟩)
    [frame2, frame2, frame2, frame2, frame5] 1 1 (by simp) (by decide), hs, ?_, ?_, ?_⟩
  · rw [hs]
  · rw [hs]
  · rw [hs]

/-- C1 amended: the pack-then-slice round trip reproduces every frame pixel
exactly provided each pixel is fully opaque (`alpha = 255`) or fully
transparent black `(0,0,0,0)`; the alpha-mask blit premultiplies any other
pixel against the transparent canvas. -/
theorem C1_roundtrip_lossless (kernel : Img → ℕ → ℕ → ℕ → Pix)
    (images : List Img) (w h : ℕ) (hne : images ≠ [])
    (hu : ∀ f ∈ images, f.width = w ∧ f.height = h)
    (hl : ∀ f ∈ images, ∀ x, x < w → ∀ y, y < h → PixLossless (f.px x y)) :
    ∃ sheet : Img,
      stitch_spritesheet kernel images none false none none =
        Except.ok ⟨sheet, false⟩ ∧
      ∀ i : ℕ, ∀ hi : i < images.length, ∀ x, x < w → ∀ y, y < h →
        (sliceCell sheet (ceilSqrt images.length) w h i).px x y =
          (images.get ⟨i, hi⟩).px x y := by
  obtain ⟨img0, rest, rfl⟩ := List.exists_cons_of_ne_nil hne
  obtain ⟨hw0, hh0⟩ := hu img0 (List.mem_cons_self _ _)
  subst hw0
  subst hh0
  simp only [List.length_cons]
  refine ⟨_, stitch_auto_eq kernel none img0 rest, ?_⟩
  intro i hi x hx y hy
  have hcell : inCell (ceilSqrt (rest.length + 1)) img0.width img0.height i
      (i % ceilSqrt (rest.length + 1) * img0.width + x)
      (i / ceilSqrt (rest.length + 1) * img0.height + y) :=
    ⟨Nat.le_add_right _ _, Nat.add_lt_add_left hx _,
     Nat.le_add_right _ _, Nat.add_lt_add_left hy _⟩
  simp only [sliceCell]
  rw [pasteFrames_px_covered (ceilSqrt (rest.length + 1)) img0.width img0.height
    (img0 :: rest) 0 _ i hi hu _ _ (by rw [Nat.zero_add]; exact hcell)]
  simp only [Nat.zero_add, Nat.add_sub_cancel_left]
  exact blend_transparent_eq _ (hl _ (List.get_mem _ _ _) x hx y hy)

/-- Witness for the amended C1 at a single fully opaque frame. -/
theorem C1_roundtrip_lossless_witness :
    ∃ sheet : Img,
      stitch_spritesheet kernelZero [frameSmall] none false none none =
        Except.ok ⟨sheet, false⟩ ∧
      ∀ i : ℕ, ∀ hi : i < [frameSmall].length, ∀ x, x < 1 → ∀ y, y < 1 →
        (sliceCell sheet (ceilSqrt [frameSmall].length) 1 1 i).px x y =
          ([frameSmall].get ⟨i, hi⟩).px x y :=
  C1_roundtrip_lossless kernelZero [frameSmall] 1 1 (by simp) (by decide)
    (by decide)

/-- C1 counterexample: packing the single half-transparent pixel
`(200, 0, 0, 128)` and re-slicing the same cell yields `(100, 0, 0, 64)` —
the blit uses the frame's alpha as a compositing mask, so partially
transparent pixels are not reproduced exactly. -/
theorem C1_roundtrip_counterexample :
    (stitch_spritesheet kernelZero [framePartial] none false none none).map
        (fun o => (sliceCell o.sheet (ceilSqrt 1) 1 1 0).px 0 0) =
      Except.ok ⟨100, 0, 0, 64⟩ ∧
    framePartial.px 0 0 = ⟨200, 0, 0, 128⟩ ∧
    ((⟨100, 0, 0, 64⟩ : Pix) ≠ ⟨200, 0, 0, 128⟩) := by
  refine ⟨by decide, rfl, by decide⟩

/-- C2 counterexample: two frames of different sizes pack without any fatal
error — the run succeeds and produces a sheet sized by frame 0's geometry. -/
theorem C2_mismatch_counterexample :
    frameSmall.width ≠ frameBig.width ∧
    (stitch_spritesheet kernelZero [frameSmall, frameBig] (some 1) false none
        none).map (fun o => (o.sheet.width, o.sheet.height, o.rembgWarned)) =
      Except.ok (1, 2, false) := by
  exact ⟨by decide, by decide⟩

/-- C2 amended: `stitch_spritesheet` never checks frame dimensions — for any
non-empty frame list, mismatched sizes included, packing succeeds (only an
empty list or an explicit zero column count fails). -/
theorem C2_no_dimension_check (kernel : Img → ℕ → ℕ → ℕ → Pix)
    (images : List Img) (colsOpt : Option ℕ) (hne : images ≠ [])
    (hcols : colsOpt ≠ some 0)
    (hmix : ∃ f ∈ images, ∃ g ∈ images, f.width ≠ g.width ∨ f.height ≠ g.height) :
    ∃ out : StitchOut,
      stitch_spritesheet kernel images colsOpt false none none =
        Except.ok out ∧ out.rembgWarned = false := by
  obtain ⟨img0, rest, rfl⟩ := List.exists_cons_of_ne_nil hne
  exact ⟨_, stitch_no_removal_eq kernel none colsOpt img0 rest
    (gridCols_ne_zero colsOpt _ (Nat.succ_pos _) hcols), rfl⟩

/-- Witness for the amended C2 at the concrete mismatched pair. -/
theorem C2_no_dimension_check_witness :
    ∃ out : StitchOut,
      stitch_spritesheet kernelZero [frameSmall, frameBig] (some 1) false none
          none = Except.ok out ∧ out.rembgWarned = false :=
  C2_no_dimension_check kernelZero [frameSmall, frameBig] (some 1) (by simp)
    (by simp) ⟨frameSmall, by simp, frameBig, by simp, Or.inl (by decide)⟩

/-- C7: with removal requested but the segmenter import unavailable, the run
does not crash: the removal phase degrades to a warned no-op pass-through and
the pipeline succeeds with a sheet pixel-identical to the run with removal
not requested (only the warning flag differs). -/
theorem C7_segmenter_unavailable (kernel : Img → ℕ → ℕ → ℕ → Pix)
    (images : List Img) (colsOpt : Option ℕ) (seg : Option (Img → Img))
    (ts : Option ℕ) (hne : images ≠ []) (hcols : colsOpt ≠ some 0) :
    removalPhase true none (downscaleStep kernel ts images) =
      Except.ok (downscaleStep kernel ts images, true) ∧
    ∃ sheet : Img,
      stitch_spritesheet kernel images colsOpt false seg ts =
        Except.ok ⟨sheet, false⟩ ∧
      stitch_spritesheet kernel images colsOpt true none ts =
        Except.ok ⟨sheet, true⟩ := by
  refine ⟨removalPhase_true_none _, ?_⟩
  obtain ⟨i0, r0, hdl⟩ :=
    List.exists_cons_of_ne_nil (downscaleStep_ne_nil kernel ts images hne)
  have hg : gridCols colsOpt (i0 :: r0).length ≠ 0 :=
    gridCols_ne_zero colsOpt _ (by simp) hcols
  have hne2 : images.isEmpty = false := by
    cases images
    · exact absurd rfl hne
    · rfl
  unfold stitch_spritesheet
  rw [hne2, removalPhase_false, removalPhase_true_none, hdl]
  simp only [Bool.false_eq_true, if_false]
  rw [if_neg hg, if_neg hg]
  exact ⟨_, rfl, rfl⟩

/-- Witness for C7 at a concrete two-frame run. -/
theorem C7_segmenter_unavailable_witness :
    removalPhase true none
        (downscaleStep kernelZero none [frameSmall, frameBig]) =
      Except.ok (downscaleStep kernelZero none [frameSmall, frameBig], true) ∧
    ∃ sheet : Img,
      stitch_spritesheet kernelZero [frameSmall, frameBig] none false none
          none = Except.ok ⟨sheet, false⟩ ∧
      stitch_spritesheet kernelZero [frameSmall, frameBig] none true none
          none = Except.ok ⟨sheet, true⟩ :=
  C7_segmenter_unavailable kernelZero [frameSmall, frameBig] none none none
    (by simp) (by simp)

/-- C10: with a target size given, the downscale step fires exactly when the
target is nonzero and frame 0's width strictly exceeds it (the decision reads
only frame 0); when it fires every frame is resized to a square
`target×target` raster regardless of aspect ratio, and otherwise the frames
pass through unchanged at their original sizes. -/
theorem C10_downscale_gate (kernel : Img → ℕ → ℕ → ℕ → Pix) (t : ℕ)
    (img0 : Img) (rest : List Img) :
    (t ≠ 0 ∧ t < img0.width →
      downscaleStep kernel (some t) (img0 :: rest) =
        (img0 :: rest).map (fun g => Img.resize g t kernel) ∧
      ∀ f ∈ downscaleStep kernel (some t) (img0 :: rest),
        f.width = t ∧ f.height = t) ∧
    (¬(t ≠ 0 ∧ t < img0.width) →
      downscaleStep kernel (some t) (img0 :: rest) = img0 :: rest) := by
  have hred : downscaleStep kernel (some t) (img0 :: rest) =
      if t ≠ 0 ∧ t < img0.width then
        (img0 :: rest).map (fun g => Img.resize g t kernel)
      else img0 :: rest := rfl
  constructor
  · intro hc
    have he : downscaleStep kernel (some t) (img0 :: rest) =
        (img0 :: rest).map fun g => Img.resize g t kernel := by
      rw [hred, if_pos hc]
    refine ⟨he, ?_⟩
    rw [he]
    intro f hf
    rcases List.mem_map.mp hf with ⟨g, hg, rfl⟩
    exact ⟨rfl, rfl⟩
  · intro hc
    rw [hred, if_neg hc]

/-- Witness for C10: target 2, frame 0 of width 4 — every frame, whatever its
aspect ratio, becomes 2×2; and with target 9 ≥ 4 the list passes through even
though the tail frame is wider than the target. -/
theorem C10_downscale_gate_witness :
    (downscaleStep kernelZero (some 2) [frameWide, frameTall] =
        [frameWide, frameTall].map (fun g => Img.resize g 2 kernelZero) ∧
      ∀ f ∈ downscaleStep kernelZero (some 2) [frameWide, frameTall],
        f.width = 2 ∧ f.height = 2) ∧
    downscaleStep kernelZero (some 9) [frameWide, frameTall] =
      [frameWide, frameTall] :=
  ⟨(C10_downscale_gate kernelZero 2 frameWide [frameTall]).1 (by decide),
   (C10_downscale_gate kernelZero 9 frameWide [frameTall]).2 (by decide)⟩

end Spritebake
